import Mathlib

/-!
Verification of vscode-fish-ide (src/extension.ts).

This file gives a shallow embedding, in Lean 4, of the extension code of
vscode-fish-ide: the lint-output regular-expression parser, the diagnostic
construction, the lint event pipeline, the formatting providers, and the
activation sequence.  The definitions are translated from src/extension.ts;
the theorems below settle the behavioural claims made about the extension.

External processes (fish, fish_indent) are modelled by their observable
outcome: either a system error (the spawn failed), or a completed run with
an exit code, standard output and standard error.  All observable pipelines
of the extension are deterministic functions of those outcomes, so each one
is embedded as a pure Lean function of the outcome.
-/

set_option maxHeartbeats 1000000

namespace VscodeFishIde

/-! ### Strings and lines

Standard error output is processed by a regular expression with the m
flag, which anchors at the start and end of each newline-separated line, so
the embedding splits the output into its newline-separated segments. -/

/-- Split a character list at every newline character. -/
def splitOnNewline : List Char → List (List Char)
  | [] => [[]]
  | c :: cs =>
    if c = '\n' then [] :: splitOnNewline cs
    else
      match splitOnNewline cs with
      | [] => [[c]]
      | l :: ls => (c :: l) :: ls

/-- Split a string into its newline-separated segments. -/
def splitLines (s : String) : List String :=
  (splitOnNewline s.toList).map String.mk

/-! ### The lint output regular expression

`parseFishErrors` matches each line of fish standard error against the
pattern with three groups: a greedy nonempty file group, followed by the
literal text of a space, an opening round bracket and the word line and a
space, then a nonempty digit group, then a closing round bracket, a colon
and a space, then a greedy nonempty message group reaching the end of the
line.  A backtracking engine with a greedy first group finds, on each line,
the longest file prefix for which the remainder of the line completes the
pattern.  `parseLineChars` below implements exactly that: it tries split
positions from the longest prefix downwards. -/

/-- The literal characters between the file group and the digit group. -/
def lineMarker : List Char := (" (line ").toList

/-- The literal characters between the digit group and the message group. -/
def sepMarker : List Char := ("): ").toList

/-- Match a literal character sequence at the head of a character list,
returning the remainder on success. -/
def stripPrefixChars : List Char → List Char → Option (List Char)
  | [], l => some l
  | _ :: _, [] => none
  | p :: ps, c :: cs => if c = p then stripPrefixChars ps cs else none

/-- The numeric value of a decimal digit string, as computed by
Number.parseInt on a string of digits. -/
def digitsToNat (ds : List Char) : Nat :=
  ds.foldl (fun acc c => acc * 10 + (c.toNat - 48)) 0

/-- Try to complete the lint error pattern with a file group of exactly `k`
characters: the file group must be nonempty, followed by the line marker, a
nonempty run of digits, the separator, and a nonempty message. -/
def tryAt (l : List Char) (k : Nat) :
    Option (List Char × List Char × List Char) :=
  let f := l.take k
  let rest := l.drop k
  if f.isEmpty then none
  else
    match stripPrefixChars lineMarker rest with
    | none => none
    | some r1 =>
      let ds := r1.takeWhile Char.isDigit
      let r2 := r1.dropWhile Char.isDigit
      if ds.isEmpty then none
      else
        match stripPrefixChars sepMarker r2 with
        | none => none
        | some m => if m.isEmpty then none else some (f, ds, m)

/-- Search for the longest file prefix (of length at most `k`) completing
the pattern, mirroring the greedy backtracking of the first regex group. -/
def searchSplit (l : List Char) : Nat → Option (List Char × List Char × List Char)
  | 0 => none
  | k + 1 =>
    match tryAt l (k + 1) with
    | some r => some r
    | none => searchSplit l k

/-- Match one line (as characters) against the lint error pattern. -/
def parseLineChars (l : List Char) :
    Option (List Char × List Char × List Char) :=
  searchSplit l l.length

/-- Match one line of fish standard error against the lint error pattern,
returning the extracted (file, line number, message) triple: the groups of
the regex, with the digit group converted by Number.parseInt. -/
def parseLine (line : String) : Option (String × Nat × String) :=
  (parseLineChars line.toList).map
    (fun t => (String.mk t.1, digitsToNat t.2.1, String.mk t.2.2))

/-- The specification shape of a lint error line: a nonempty file part, the
line marker, a nonempty decimal digit part, the separator, and a nonempty
message part. -/
def IsErrorLineChars (l f ds m : List Char) : Prop :=
  f ≠ [] ∧ ds ≠ [] ∧ (∀ c ∈ ds, c.isDigit = true) ∧ m ≠ [] ∧
    l = f ++ lineMarker ++ ds ++ sepMarker ++ m

/-! ### URIs -/

/-- The parts of a vscode Uri the extension observes. -/
structure Uri where
  scheme : String
  path : String
deriving Repr, DecidableEq

/-- Uri.file constructs a file-scheme Uri for a path. -/
def Uri.file (path : String) : Uri := ⟨"file", path⟩

/-- expandUser replaces a leading tilde that is the whole path or is
followed by a forward or backward slash with the home directory, keeping
the captured boundary character, and wraps the result in a file Uri. -/
def expandUserPath (homedir path : String) : String :=
  match path.toList with
  | ['~'] => homedir
  | '~' :: '/' :: rest => homedir ++ String.mk ('/' :: rest)
  | '~' :: '\\' :: rest => homedir ++ String.mk ('\\' :: rest)
  | _ => path

/-- expandUser from the source: tilde expansion followed by Uri.file. -/
def expandUser (homedir path : String) : Uri :=
  Uri.file (expandUserPath homedir path)

/-- A JavaScript function object reference.  Reading the property named
toString on a Uri instance, without calling it, yields the single shared
method object installed on the Uri prototype; the same object for every
instance. -/
inductive JsFunctionRef
  | uriPrototypeToString
deriving Repr, DecidableEq

/-- The value of the expression reading the toString property (not calling
it) on a Uri instance: the shared prototype method, for every instance. -/
def uriToStringRef (_ : Uri) : JsFunctionRef := .uriPrototypeToString

/-! ### Positions, ranges, documents -/

/-- A zero-based line and character position. -/
structure Position where
  line : Nat
  character : Nat
deriving Repr, DecidableEq

/-- A range between two positions.  The source builds ranges from four
numbers: start line, start character, end line, end character. -/
structure Range where
  start : Position
  stop : Position
deriving Repr, DecidableEq

/-- Number.MAX_VALUE, the largest double, as an exact natural number. -/
def numberMaxValue : Nat := (2 ^ 53 - 1) * 2 ^ 971

/-- The parts of a vscode TextDocument the extension observes. -/
structure TextDocument where
  text : String
  isDirty : Bool
  languageId : String
  uri : Uri
  fileName : String
deriving Repr, DecidableEq

/-- The lines of a document: the newline-separated segments of its text.
This list is never empty: an empty document has one empty line. -/
def TextDocument.lines (d : TextDocument) : List String :=
  splitLines d.text

/-- Clamp a position into the document, as the editor host does when a
range is validated: a line beyond the last line becomes the last line with
its full length as the character; otherwise the character is clamped to
the length of the addressed line. -/
def validatePosition (d : TextDocument) (p : Position) : Position :=
  if d.lines.length ≤ p.line then
    ⟨d.lines.length - 1, (d.lines.getD (d.lines.length - 1) "").length⟩
  else
    ⟨p.line, min p.character (d.lines.getD p.line "").length⟩

/-- Validate a range by validating both of its positions. -/
def validateRange (d : TextDocument) (r : Range) : Range :=
  ⟨validatePosition d r.start, validatePosition d r.stop⟩

/-! ### Diagnostics -/

/-- The parts of a vscode Diagnostic the extension sets. -/
structure Diagnostic where
  range : Range
  message : String
  source : Option String
deriving Repr, DecidableEq

/-- The diagnostic built by parseFishErrors for an extracted line number
and message: the validated full-extent range of the zero-based line, the
message, and the source fish. -/
def fishDiagnostic (document : TextDocument) (lineNumber : Nat)
    (message : String) : Diagnostic :=
  { range := validateRange document
      ⟨⟨lineNumber - 1, 0⟩, ⟨lineNumber - 1, numberMaxValue⟩⟩
    message := message
    source := some "fish" }

/-- parseFishErrors from the source: match every line of the fish standard
error output against the lint pattern, keep the matches whose expanded
file Uri passes the toString reference comparison against the document
Uri, and build a diagnostic from each kept match. -/
def parseFishErrors (homedir : String) (document : TextDocument)
    (output : String) : List Diagnostic :=
  (((splitLines output).filterMap parseLine).filter
      (fun t => uriToStringRef (expandUser homedir t.1) ==
        uriToStringRef document.uri)).map
    (fun t => fishDiagnostic document t.2.1 t.2.2)

/-! ### Process invocation

runInWorkspace spawns a child process.  The callback receives an optional
error together with the captured standard output and standard error.  A
system error (a failed syscall, marked by a string errno field) makes the
observable fail; an error with a positive exit code field is a process
error, and the observable still delivers the result, with that exit code.
The outcome seen by every downstream pipeline is therefore either a system
error or a completed result. -/

/-- The result of a process, as in the source. -/
structure IProcessResult where
  exitCode : Int
  stdout : String
  stderr : String
deriving Repr, DecidableEq

/-- The error object the execFile callback may receive. -/
structure ExecError where
  message : String
  errno : Option String
  code : Option Int
deriving Repr, DecidableEq

/-- isSystemError from the source: the error has a string errno field. -/
def isSystemError (e : ExecError) : Bool :=
  e.errno.isSome

/-- isProcessError from the source: not a system error, and the error has
an exit code field that is positive. -/
def isProcessError (e : ExecError) : Bool :=
  !isSystemError e && e.code.isSome && decide (0 < e.code.getD 0)

/-- The outcome of runInWorkspace as seen by its subscribers. -/
inductive RunOutcome
  | sysError (message : String)
  | completed (result : IProcessResult)
deriving Repr, DecidableEq

/-- The callback logic of runInWorkspace: fail the observable on an error
that is not a process error; otherwise deliver the result, whose exit code
is the error code when there is an error and zero when there is none. -/
def runInWorkspaceOutcome (error : Option ExecError) (stdout stderr : String) :
    RunOutcome :=
  match error with
  | none => .completed ⟨0, stdout, stderr⟩
  | some e =>
    if isProcessError e then .completed ⟨e.code.getD 0, stdout, stderr⟩
    else .sysError e.message

/-! ### Document filtering and the lint pipeline -/

/-- A document filter with a language and a scheme, as passed by the
source to the language matcher. -/
structure DocumentFilter where
  language : String
  scheme : String
deriving Repr, DecidableEq

/-- vscode.languages.match for a filter carrying a language and a scheme:
score ten when both match the document, otherwise zero. -/
def languagesMatch (filter : DocumentFilter) (document : TextDocument) : Nat :=
  if document.languageId = filter.language ∧ document.uri.scheme = filter.scheme
  then 10 else 0

/-- The filter used by the linter: language fish, scheme file. -/
def fishDocumentFilter : DocumentFilter := ⟨"fish", "file"⟩

/-- isSavedFishDocument from the source: the document is not dirty and the
fish file filter matches it with a positive score. -/
def isSavedFishDocument (document : TextDocument) : Bool :=
  !document.isDirty &&
    decide (0 < languagesMatch fishDocumentFilter document)

/-- The command spawned by lintDocument for a document. -/
def fishLintCommand (document : TextDocument) : List String :=
  ["fish", "-n", document.fileName]

/-- The diagnostic collection: Uri keys mapped to stored diagnostics. -/
abbrev DiagnosticCollection : Type := List (Uri × List Diagnostic)

/-- Store diagnostics for a Uri, replacing previous ones. -/
def dcSet (c : DiagnosticCollection) (u : Uri) (ds : List Diagnostic) :
    DiagnosticCollection :=
  (u, ds) :: c.filter (fun e => e.1 ≠ u)

/-- Remove the diagnostics stored for a Uri. -/
def dcDelete (c : DiagnosticCollection) (u : Uri) : DiagnosticCollection :=
  c.filter (fun e => e.1 ≠ u)

/-- Look up the diagnostics stored for a Uri. -/
def dcGet (c : DiagnosticCollection) (u : Uri) : Option (List Diagnostic) :=
  (c.find? (fun e => e.1 = u)).map Prod.snd

/-- The observable state of the lint pipeline of startLinting: the
diagnostic collection, the error messages shown to the user so far, and
the commands spawned so far. -/
structure LintState where
  diagnostics : DiagnosticCollection
  shownMessages : List String
  ranCommands : List (List String)

/-- One document event (from the initial document list, an open event or a
save event) through the lint pipeline of startLinting: documents failing
isSavedFishDocument are filtered out before any process is spawned; for a
passing document, fish -n is spawned, and either the outcome is a system
error, in which case an error message is shown and the stored diagnostics
of the document Uri are deleted, or the run completed and its standard
error is parsed into the diagnostics stored for the document Uri. -/
def lintEventStep (homedir : String) (st : LintState)
    (ev : TextDocument × RunOutcome) : LintState :=
  if isSavedFishDocument ev.1 then
    match ev.2 with
    | .sysError msg =>
      { diagnostics := dcDelete st.diagnostics ev.1.uri
        shownMessages := st.shownMessages ++ [msg]
        ranCommands := st.ranCommands ++ [fishLintCommand ev.1] }
    | .completed r =>
      { diagnostics :=
          dcSet st.diagnostics ev.1.uri (parseFishErrors homedir ev.1 r.stderr)
        shownMessages := st.shownMessages
        ranCommands := st.ranCommands ++ [fishLintCommand ev.1] }
  else st

/-- The lint pipeline over a whole sequence of document events, each paired
with the outcome its fish -n run would have. -/
def lintPipeline (homedir : String) (st : LintState)
    (events : List (TextDocument × RunOutcome)) : LintState :=
  events.foldl (lintEventStep homedir) st

/-! ### Formatting -/

/-- A text edit replacing a range with new text. -/
structure TextEdit where
  range : Range
  newText : String
deriving Repr, DecidableEq

/-- TextEdit.replace from the editor API. -/
def TextEdit.replace (r : Range) (t : String) : TextEdit := ⟨r, t⟩

/-- The whole-document range passed by getFormatRangeEdits when no range
is given: all four coordinates at zero or Number.MAX_VALUE. -/
def fullDocumentRange : Range :=
  ⟨⟨0, 0⟩, ⟨numberMaxValue, numberMaxValue⟩⟩

/-- The text of a document inside a (validated) range. -/
def getTextInRange (d : TextDocument) (r : Range) : String :=
  let ls := d.lines
  if r.start.line = r.stop.line then
    String.mk (((ls.getD r.start.line "").toList.take r.stop.character).drop
      r.start.character)
  else
    let first := String.mk ((ls.getD r.start.line "").toList.drop
      r.start.character)
    let middle := (ls.drop (r.start.line + 1)).take
      (r.stop.line - r.start.line - 1)
    let last := String.mk ((ls.getD r.stop.line "").toList.take
      r.stop.character)
    String.intercalate "\n" ([first] ++ middle ++ [last])

/-- The range getFormatRangeEdits actually formats: the given range, or
the whole-document range when none is given, validated by the document. -/
def actualFormatRange (document : TextDocument) (range : Option Range) :
    Range :=
  validateRange document (range.getD fullDocumentRange)

/-- The text fed to the standard input of fish_indent. -/
def formatStdin (document : TextDocument) (range : Option Range) : String :=
  getTextInRange document (actualFormatRange document range)

/-- The observable outcome of getFormatRangeEdits: the error message shown
(if any) and either a failed observable (the error is re-thrown after the
message is shown, so the promise rejects) or the list of emitted items,
each an edit list.  A completed run with exit code zero emits exactly one
item, the single replacing edit; a completed run with a nonzero exit code
is dropped by the exit code filter, so nothing is emitted. -/
structure GetFormatResult where
  shownMessage : Option String
  outcome : Except String (List (List TextEdit))

/-- getFormatRangeEdits from the source, as a function of the fish_indent
outcome. -/
def getFormatRangeEdits (document : TextDocument) (range : Option Range)
    (run : RunOutcome) : GetFormatResult :=
  let actualRange := actualFormatRange document range
  match run with
  | .sysError msg =>
    { shownMessage := some ("Failed to run fish_indent: " ++ msg)
      outcome := .error msg }
  | .completed r =>
    { shownMessage := none
      outcome := .ok (if r.exitCode = 0
        then [[TextEdit.replace actualRange r.stdout]] else []) }

/-- defaultIfEmpty from the observable library: emit the default when the
sequence is empty, otherwise the sequence itself. -/
def defaultIfEmpty (dflt : List TextEdit) (items : List (List TextEdit)) :
    List (List TextEdit) :=
  if items.isEmpty then [dflt] else items

/-- The promise a formatting provider resolves or rejects: the emitted
items are filtered by the cancellation token, defaulted to one empty edit
list when nothing remains, and the promise resolves to the last item. -/
structure ProviderResult where
  shownMessage : Option String
  promise : Except String (List TextEdit)

/-- The shared provider pipeline: getFormatRangeEdits, then the
cancellation filter, then defaultIfEmpty with an empty edit list, then
toPromise. -/
def formatProviderPromise (document : TextDocument) (range : Option Range)
    (run : RunOutcome) (cancelled : Bool) : ProviderResult :=
  let g := getFormatRangeEdits document range run
  { shownMessage := g.shownMessage
    promise := g.outcome.map (fun items =>
      (defaultIfEmpty [] (items.filter (fun _ => !cancelled))).getLastD []) }

/-- provideDocumentFormattingEdits from the source: the whole-document
provider, which passes no range. -/
def provideDocumentFormattingEdits (document : TextDocument)
    (run : RunOutcome) (cancelled : Bool) : ProviderResult :=
  formatProviderPromise document none run cancelled

/-- provideDocumentRangeFormattingEdits from the source: the range
provider. -/
def provideDocumentRangeFormattingEdits (document : TextDocument)
    (range : Range) (run : RunOutcome) (cancelled : Bool) : ProviderResult :=
  formatProviderPromise document (some range) run cancelled

/-! ### Version detection and activation -/

/-- The prefix of a fish version line of standard output. -/
def versionLineStart : List Char := ("fish, version ").toList

/-- Match one line of standard output against the version pattern: the
literal prefix followed by a nonempty version group reaching the end of
the line. -/
def versionOfLine (line : String) : Option String :=
  match stripPrefixChars versionLineStart line.toList with
  | some rest => if rest.isEmpty then none else some (String.mk rest)
  | none => none

/-- String.match with the multiline version regex and no global flag: the
first line of the output that matches the version pattern. -/
def firstVersionLine (stdout : String) : Option String :=
  ((splitLines stdout).filterMap versionOfLine).head?

/-- getFishVersion from the source: run fish with the version flag; fail
on a system error; otherwise extract the version from standard output, and
fail when no line matches. -/
def getFishVersion (run : RunOutcome) : Except String String :=
  match run with
  | .sysError msg => .error msg
  | .completed r =>
    match firstVersionLine r.stdout with
    | some v => .ok v
    | none => .error ("Failed to extract fish version from: " ++ r.stdout)

/-- The context subscriptions activation can register. -/
inductive Subscription
  | diagnosticCollection (name : String)
  | lintingSubscription
  | closedSubscription
  | documentFormattingProvider (selector : String)
  | documentRangeFormattingProvider (selector : String)
deriving Repr, DecidableEq

/-- The subscriptions pushed by startLinting: the fish diagnostic
collection, the lint subscription and the close subscription. -/
def startLintingSubscriptions : List Subscription :=
  [.diagnosticCollection "fish", .lintingSubscription, .closedSubscription]

/-- activate from the source: get the fish version; on success start
linting and register the two formatting providers for fish documents, and
resolve; on failure the promise rejects and nothing is registered. -/
def activate (run : RunOutcome) : Except String (List Subscription) :=
  (getFishVersion run).map (fun _ =>
    startLintingSubscriptions ++
      [.documentFormattingProvider "fish",
       .documentRangeFormattingProvider "fish"])

/-! ### Concrete values used by the witnesses -/

/-- A saved fish document with two lines of text. -/
def sampleDoc : TextDocument :=
  { text := "echo hi\nend"
    isDirty := false
    languageId := "fish"
    uri := ⟨"file", "/tmp/t.fish"⟩
    fileName := "/tmp/t.fish" }

/-- A dirty fish document. -/
def dirtyDoc : TextDocument :=
  { text := ""
    isDirty := true
    languageId := "fish"
    uri := ⟨"file", "/tmp/d.fish"⟩
    fileName := "/tmp/d.fish" }

/-- A Uri different from the sample document Uri. -/
def otherUri : Uri := ⟨"file", "/tmp/o.fish"⟩

/-- A lint state holding diagnostics for the other Uri. -/
def witnessState : LintState := ⟨[(otherUri, [])], [], []⟩

/-- The standard output contains a line of the version form: the literal
version marker followed by a nonempty remainder. -/
def HasVersionLine (stdout : String) : Prop :=
  ∃ line ∈ splitLines stdout, ∃ rest : List Char,
    rest ≠ [] ∧ line.toList = versionLineStart ++ rest


/-! ### Lemmas about the pattern matcher -/

theorem stripPrefixChars_self_append (p r : List Char) :
    stripPrefixChars p (p ++ r) = some r := by
  induction p with
  | nil => rfl
  | cons c cs ih => simp [stripPrefixChars, ih]

theorem stripPrefixChars_eq_some {p l r : List Char}
    (h : stripPrefixChars p l = some r) : l = p ++ r := by
  induction p generalizing l with
  | nil => simpa [stripPrefixChars] using h
  | cons c cs ih =>
    cases l with
    | nil => simp [stripPrefixChars] at h
    | cons a as =>
      by_cases hac : a = c
      · subst hac
        simp only [stripPrefixChars, if_pos rfl] at h
        simpa using ih h
      · simp [stripPrefixChars, hac] at h

theorem takeWhile_digits_append (ds t : List Char)
    (h : ∀ c ∈ ds, c.isDigit = true) :
    (ds ++ ')' :: t).takeWhile Char.isDigit = ds ∧
      (ds ++ ')' :: t).dropWhile Char.isDigit = ')' :: t := by
  induction ds with
  | nil =>
    constructor
    · simp [List.takeWhile_cons, show Char.isDigit ')' = false by decide]
    · simp [List.dropWhile_cons, show Char.isDigit ')' = false by decide]
  | cons d ds ih =>
    have hd : d.isDigit = true := h d (by simp)
    have ih2 := ih (fun c hc => h c (by simp [hc]))
    constructor
    · simp [List.takeWhile_cons, hd, ih2.1]
    · simp [List.dropWhile_cons, hd, ih2.2]

theorem sepMarker_cons : sepMarker = ')' :: (':' :: [' ']) := by decide

theorem tryAt_sound {l : List Char} {k : Nat} {f ds m : List Char}
    (h : tryAt l k = some (f, ds, m)) : IsErrorLineChars l f ds m := by
  unfold tryAt at h
  simp only at h
  split at h
  · exact absurd h (by simp)
  · rename_i hfE
    split at h
    · exact absurd h (by simp)
    · rename_i r1 hstrip
      split at h
      · exact absurd h (by simp)
      · rename_i hdsE
        split at h
        · exact absurd h (by simp)
        · rename_i mm hsep
          split at h
          · exact absurd h (by simp)
          · rename_i hmE
            simp only [Option.some.injEq, Prod.mk.injEq] at h
            obtain ⟨h1, h2, h3⟩ := h
            subst h1
            subst h2
            subst h3
            refine ⟨by simpa [List.isEmpty_iff] using hfE,
                    by simpa [List.isEmpty_iff] using hdsE,
                    fun c hc => List.mem_takeWhile_imp hc,
                    by simpa [List.isEmpty_iff] using hmE, ?_⟩
            have e1 : l.drop k = lineMarker ++ r1 := stripPrefixChars_eq_some hstrip
            have e2 : r1.dropWhile Char.isDigit = sepMarker ++ mm :=
              stripPrefixChars_eq_some hsep
            have e3 : r1 = r1.takeWhile Char.isDigit ++ (sepMarker ++ mm) := by
              rw [← e2, List.takeWhile_append_dropWhile]
            calc l = l.take k ++ l.drop k := (List.take_append_drop k l).symm
              _ = l.take k ++ (lineMarker ++ (r1.takeWhile Char.isDigit ++ (sepMarker ++ mm))) := by
                    rw [e1, ← e3]
              _ = l.take k ++ lineMarker ++ r1.takeWhile Char.isDigit ++ sepMarker ++ mm := by
                    simp [List.append_assoc]

theorem tryAt_complete {l f ds m : List Char}
    (h : IsErrorLineChars l f ds m) : tryAt l f.length = some (f, ds, m) := by
  obtain ⟨hf, hds, hdig, hm, hl⟩ := h
  have hfE : f.isEmpty = false := by simpa [List.isEmpty_iff] using hf
  have hdsE : ds.isEmpty = false := by simpa [List.isEmpty_iff] using hds
  have hmE : m.isEmpty = false := by simpa [List.isEmpty_iff] using hm
  have hassoc : l = f ++ (lineMarker ++ (ds ++ (sepMarker ++ m))) := by
    simpa [List.append_assoc] using hl
  have htake : l.take f.length = f := by
    rw [hassoc]; exact List.take_left f _
  have hdrop : l.drop f.length = lineMarker ++ (ds ++ (sepMarker ++ m)) := by
    rw [hassoc]; exact List.drop_left f _
  have hsm : sepMarker ++ m = ')' :: (':' :: (' ' :: m)) := by
    rw [sepMarker_cons]; simp
  have htw := takeWhile_digits_append ds (':' :: ' ' :: m) hdig
  have htw1 : (ds ++ (sepMarker ++ m)).takeWhile Char.isDigit = ds := by
    rw [hsm]; exact htw.1
  have htw2 : (ds ++ (sepMarker ++ m)).dropWhile Char.isDigit = sepMarker ++ m := by
    rw [hsm]; exact htw.2
  unfold tryAt
  simp [htake, hdrop, hfE, hdsE, hmE, stripPrefixChars_self_append, htw1, htw2]

theorem searchSplit_sound {l : List Char} {k : Nat} {r : List Char × List Char × List Char}
    (h : searchSplit l k = some r) : ∃ j, 0 < j ∧ j ≤ k ∧ tryAt l j = some r := by
  induction k with
  | zero => simp [searchSplit] at h
  | succ k ih =>
    unfold searchSplit at h
    cases htry : tryAt l (k + 1) with
    | some r2 =>
      rw [htry] at h
      exact ⟨k + 1, Nat.succ_pos k, Nat.le_refl _, by simpa [htry] using h⟩
    | none =>
      rw [htry] at h
      obtain ⟨j, hj0, hjk, hjt⟩ := ih h
      exact ⟨j, hj0, Nat.le_succ_of_le hjk, hjt⟩

theorem searchSplit_complete {l : List Char} {j k : Nat}
    {r : List Char × List Char × List Char}
    (hj0 : 0 < j) (hjk : j ≤ k) (h : tryAt l j = some r) :
    (searchSplit l k).isSome = true := by
  induction k with
  | zero => omega
  | succ k ih =>
    unfold searchSplit
    cases htry : tryAt l (k + 1) with
    | some r2 => simp
    | none =>
      simp only
      by_cases hjeq : j = k + 1
      · subst hjeq; rw [htry] at h; cases h
      · exact ih (by omega)

example : parseLine "/home/u/test.fish (line 3): Missing end" =
    some ("/home/u/test.fish", 3, "Missing end") := by decide

example : parseLine "not an error line" = none := by decide

example : parseLine "a (line 1): b (line 2): c" =
    some ("a (line 1): b", 2, "c") := by decide


/-! ### Claim C1 -/

/-- C1: for every line of fish -n standard-error output of the form
file, space, open bracket, the word line, space, digits, close bracket,
colon, space, message (with nonempty file, digits and message parts), the
lint parser extracts exactly such a (file, N, message) triple, with N the
numeric value of the digit part; a line not of that form yields no
extracted triple and hence no diagnostic. -/
theorem parseLine_extracts_error_triples (line : String) :
    ((parseLine line).isSome ↔ ∃ f ds m, IsErrorLineChars line.toList f ds m) ∧
    (∀ f n m, parseLine line = some (f, n, m) →
      ∃ ds, IsErrorLineChars line.toList f.toList ds m.toList ∧
        n = digitsToNat ds) := by
  constructor
  · constructor
    · intro h
      cases hp : parseLineChars line.toList with
      | none =>
        unfold parseLine at h
        rw [hp] at h
        simp at h
      | some r =>
        unfold parseLineChars at hp
        obtain ⟨j, _, _, hj⟩ := searchSplit_sound hp
        exact ⟨r.1, r.2.1, r.2.2, tryAt_sound hj⟩
    · rintro ⟨f, ds, m, hform⟩
      have ht := tryAt_complete hform
      have hpos : 0 < f.length := List.length_pos.mpr hform.1
      have hlen : f.length ≤ line.toList.length := by
        rw [hform.2.2.2.2]
        simp [List.length_append]
      have hs := searchSplit_complete hpos hlen ht
      obtain ⟨r, hr⟩ := Option.isSome_iff_exists.mp hs
      have hpc : parseLineChars line.toList = some r := hr
      unfold parseLine
      rw [hpc]
      simp
  · intro f n m h
    cases hp : parseLineChars line.toList with
    | none =>
      unfold parseLine at h
      rw [hp] at h
      simp at h
    | some r =>
      obtain ⟨fc, dsc, mc⟩ := r
      unfold parseLine at h
      rw [hp] at h
      simp only [Option.map_some', Option.some.injEq, Prod.mk.injEq] at h
      obtain ⟨h1, h2, h3⟩ := h
      subst h1
      subst h3
      unfold parseLineChars at hp
      obtain ⟨j, _, _, hj⟩ := searchSplit_sound hp
      exact ⟨dsc, tryAt_sound hj, h2.symm⟩

/-- Witness for C1 at a concrete error line: the extracted triple is the
decomposition of the line, with the extracted number the value of the
digit part. -/
theorem parseLine_extracts_error_triples_witness :
    ∃ ds, IsErrorLineChars ("a.fish (line 2): oops").toList
        ("a.fish").toList ds ("oops").toList ∧ 2 = digitsToNat ds :=
  (parseLine_extracts_error_triples "a.fish (line 2): oops").2
    "a.fish" 2 "oops" (by decide)


/-! ### Lemmas about the diagnostic collection -/

theorem dcDelete_cons_drop {e : Uri × List Diagnostic}
    {es : DiagnosticCollection} {u : Uri} (he : e.1 = u) :
    dcDelete (e :: es) u = dcDelete es u := by
  simp [dcDelete, List.filter_cons, he]

theorem dcDelete_cons_keep {e : Uri × List Diagnostic}
    {es : DiagnosticCollection} {u : Uri} (he : ¬ e.1 = u) :
    dcDelete (e :: es) u = e :: dcDelete es u := by
  simp [dcDelete, List.filter_cons, he]

theorem dcGet_cons_hit {e : Uri × List Diagnostic} {es : DiagnosticCollection}
    {v : Uri} (hv : e.1 = v) : dcGet (e :: es) v = some e.2 := by
  simp [dcGet, List.find?, hv]

theorem dcGet_cons_miss {e : Uri × List Diagnostic} {es : DiagnosticCollection}
    {v : Uri} (hv : ¬ e.1 = v) : dcGet (e :: es) v = dcGet es v := by
  simp [dcGet, List.find?, hv]

theorem dcGet_dcDelete_self (c : DiagnosticCollection) (u : Uri) :
    dcGet (dcDelete c u) u = none := by
  induction c with
  | nil => rfl
  | cons e es ih =>
    by_cases he : e.1 = u
    · rw [dcDelete_cons_drop he, ih]
    · rw [dcDelete_cons_keep he, dcGet_cons_miss he, ih]

theorem dcGet_dcDelete_other (c : DiagnosticCollection) (u v : Uri)
    (h : v ≠ u) : dcGet (dcDelete c u) v = dcGet c v := by
  induction c with
  | nil => rfl
  | cons e es ih =>
    by_cases he : e.1 = u
    · have hev : ¬ e.1 = v := by rw [he]; exact fun hv => h hv.symm
      rw [dcDelete_cons_drop he, dcGet_cons_miss hev, ih]
    · by_cases hev : e.1 = v
      · rw [dcDelete_cons_keep he, dcGet_cons_hit hev, dcGet_cons_hit hev]
      · rw [dcDelete_cons_keep he, dcGet_cons_miss hev, dcGet_cons_miss hev,
          ih]

/-! ### Claim C2 -/

/-- C2: for an extracted triple with one-based line number N, the
diagnostic built by parseFishErrors carries the extracted message, the
source fish, and the validated full-extent range of zero-based line N-1:
when that line exists in the document, the range runs from character zero
to the full length of the line; otherwise it is clamped against the actual
document content. -/
theorem fishDiagnostic_anchors_line (document : TextDocument) (n : Nat)
    (message : String) (h : 1 ≤ n) :
    (fishDiagnostic document n message).message = message ∧
    (fishDiagnostic document n message).source = some "fish" ∧
    (fishDiagnostic document n message).range =
      validateRange document ⟨⟨n - 1, 0⟩, ⟨n - 1, numberMaxValue⟩⟩ ∧
    (n - 1 < document.lines.length →
      (document.lines.getD (n - 1) "").length ≤ numberMaxValue →
      (fishDiagnostic document n message).range =
        ⟨⟨n - 1, 0⟩, ⟨n - 1, (document.lines.getD (n - 1) "").length⟩⟩) := by
  refine ⟨rfl, rfl, rfl, ?_⟩
  intro h1 h2
  have hnle : ¬ document.lines.length ≤ n - 1 := by omega
  have e1 : validatePosition document ⟨n - 1, 0⟩ = ⟨n - 1, 0⟩ := by
    unfold validatePosition
    rw [if_neg hnle]
    rw [min_eq_left (Nat.zero_le _)]
  have e2 : validatePosition document ⟨n - 1, numberMaxValue⟩ =
      ⟨n - 1, (document.lines.getD (n - 1) "").length⟩ := by
    unfold validatePosition
    rw [if_neg hnle]
    rw [min_eq_right h2]
  show validateRange document ⟨⟨n - 1, 0⟩, ⟨n - 1, numberMaxValue⟩⟩ = _
  unfold validateRange
  rw [e1, e2]

/-- Any number at most two to the fifty-third is at most Number.MAX_VALUE;
in particular every line length a JavaScript string can have is. -/
theorem le_numberMaxValue {n : Nat} (h : n ≤ 2 ^ 53) : n ≤ numberMaxValue := by
  unfold numberMaxValue
  have ha : (2 : Nat) ^ 53 ≤ (2 ^ 53 - 1) * 2 := by norm_num
  have hb : (2 : Nat) ≤ 2 ^ 971 := by
    calc (2 : Nat) = 2 ^ 1 := (pow_one 2).symm
      _ ≤ 2 ^ 971 := Nat.pow_le_pow_right (by norm_num) (by norm_num)
  calc n ≤ 2 ^ 53 := h
    _ ≤ (2 ^ 53 - 1) * 2 := ha
    _ ≤ (2 ^ 53 - 1) * 2 ^ 971 := Nat.mul_le_mul (Nat.le_refl _) hb

/-- Witness for C2 at a concrete document and triple: line number 2 is
anchored at the full second line of the sample document. -/
theorem fishDiagnostic_anchors_line_witness :
    (fishDiagnostic sampleDoc 2 "oops").range = ⟨⟨1, 0⟩, ⟨1, 3⟩⟩ := by
  have hlen : (sampleDoc.lines.getD (2 - 1) "").length = 3 := by decide
  have h := (fishDiagnostic_anchors_line sampleDoc 2 "oops"
    (by decide)).2.2.2 (by decide)
    (le_numberMaxValue (by rw [hlen]; norm_num))
  rw [h, hlen]

/-! ### Claim C3 -/

/-- C3: when fish_indent completes with exit code zero and the request is
not cancelled, each formatting provider resolves to exactly one edit
replacing the validated requested range (the validated whole-document
range for the whole-document provider) with the whole standard output of
the process; when fish_indent completes with a nonzero exit code, each
provider resolves to an empty edit list, leaving the document text
unchanged. -/
theorem formattingProviders_exit_code (document : TextDocument)
    (range : Range) (r : IProcessResult) :
    (r.exitCode = 0 →
      (provideDocumentRangeFormattingEdits document range
          (.completed r) false).promise =
        .ok [TextEdit.replace (validateRange document range) r.stdout] ∧
      (provideDocumentFormattingEdits document (.completed r) false).promise =
        .ok [TextEdit.replace (validateRange document fullDocumentRange)
          r.stdout]) ∧
    (r.exitCode ≠ 0 →
      (provideDocumentRangeFormattingEdits document range
          (.completed r) false).promise = .ok [] ∧
      (provideDocumentFormattingEdits document (.completed r) false).promise =
        .ok []) := by
  constructor
  · intro h0
    constructor <;>
      simp [provideDocumentRangeFormattingEdits,
        provideDocumentFormattingEdits, formatProviderPromise,
        getFormatRangeEdits, actualFormatRange, h0, defaultIfEmpty,
        Except.map, List.getLastD]
  · intro hne
    constructor <;>
      simp [provideDocumentRangeFormattingEdits,
        provideDocumentFormattingEdits, formatProviderPromise,
        getFormatRangeEdits, actualFormatRange, hne, defaultIfEmpty,
        Except.map, List.getLastD]

/-- Witness for C3 at concrete inputs: a zero exit resolves to the single
replacing edit, and a nonzero exit resolves to the empty edit list. -/
theorem formattingProviders_exit_code_witness :
    (provideDocumentRangeFormattingEdits sampleDoc ⟨⟨0, 0⟩, ⟨0, 2⟩⟩
        (.completed ⟨0, "out", ""⟩) false).promise =
      .ok [TextEdit.replace (validateRange sampleDoc ⟨⟨0, 0⟩, ⟨0, 2⟩⟩)
        "out"] ∧
    (provideDocumentFormattingEdits sampleDoc
        (.completed ⟨2, "", ""⟩) false).promise = .ok [] :=
  ⟨((formattingProviders_exit_code sampleDoc ⟨⟨0, 0⟩, ⟨0, 2⟩⟩
      ⟨0, "out", ""⟩).1 (by decide)).1,
   ((formattingProviders_exit_code sampleDoc ⟨⟨0, 0⟩, ⟨0, 2⟩⟩
      ⟨2, "", ""⟩).2 (by decide)).2⟩

/-! ### Claim C6 -/

/-- C6: when cancellation has been requested by the time the fish_indent
result arrives, both formatting providers resolve to an empty edit list,
whatever the exit code and output of the completed process were: the late
result is ignored and the document text stays unchanged. -/
theorem cancelledFormatRequest_resolves_empty (document : TextDocument)
    (range : Range) (r : IProcessResult) :
    (provideDocumentFormattingEdits document (.completed r) true).promise =
      .ok [] ∧
    (provideDocumentRangeFormattingEdits document range
        (.completed r) true).promise = .ok [] := by
  constructor <;>
    · by_cases h : r.exitCode = 0 <;>
        simp [provideDocumentFormattingEdits,
          provideDocumentRangeFormattingEdits, formatProviderPromise,
          getFormatRangeEdits, h, defaultIfEmpty, Except.map, List.getLastD]

/-! ### Claim C4 -/

/-- Counterexample for C4 as stated: fish_indent exits with the nonzero
exit code two, yet no user-visible error message is shown (the provider
silently resolves to an empty edit list). -/
theorem nonzero_exit_shows_no_message_cex :
    (provideDocumentFormattingEdits sampleDoc
        (.completed ⟨2, "", ""⟩) false).shownMessage = none ∧
    (2 : Int) ≠ 0 ∧
    (lintEventStep "/h" ⟨[], [], []⟩
        (sampleDoc, .completed ⟨1, "", "bad output"⟩)).shownMessages = [] := by
  refine ⟨rfl, by decide, ?_⟩
  decide

/-- C4 amended: a user-visible error message is shown exactly when the
spawn of the process fails with a system error; a completed run with a
nonzero exit code shows no message (the lint pipeline parses the fish -n
standard error into diagnostics, and the formatting pipeline resolves to
an empty edit list). -/
theorem errorMessage_iff_system_error (homedir : String) (st : LintState)
    (document : TextDocument) (range : Option Range) (run : RunOutcome)
    (cancelled : Bool) :
    ((formatProviderPromise document range run cancelled).shownMessage.isSome
        = true ↔ ∃ msg, run = RunOutcome.sysError msg) ∧
    (isSavedFishDocument document = true →
      (lintEventStep homedir st (document, run)).shownMessages.length =
        st.shownMessages.length +
          (match run with
           | RunOutcome.sysError _ => 1
           | RunOutcome.completed _ => 0)) := by
  constructor
  · cases run with
    | sysError msg => simp [formatProviderPromise, getFormatRangeEdits]
    | completed r => simp [formatProviderPromise, getFormatRangeEdits]
  · intro hq
    cases run with
    | sysError msg => simp [lintEventStep, hq]
    | completed r => simp [lintEventStep, hq]

/-- Witness for the amended C4: a concrete system error while linting adds
one shown message. -/
theorem errorMessage_iff_system_error_witness :
    (lintEventStep "/h" ⟨[], [], []⟩
        (sampleDoc, RunOutcome.sysError "boom")).shownMessages.length = 1 := by
  have h := (errorMessage_iff_system_error "/h" ⟨[], [], []⟩ sampleDoc none
    (RunOutcome.sysError "boom") false).2 (by decide)
  simpa using h

/-! ### Claim C5 -/

/-- C5: when linting a document fails with an error (the fish spawn
failed), an error message is shown, the stored diagnostics of the document
Uri are removed, the stored diagnostics of every other Uri are untouched,
and exactly the one failed fish -n spawn happened, with no retry. -/
theorem lintFailure_shows_message_and_clears (homedir : String)
    (st : LintState) (document : TextDocument) (msg : String) (u : Uri)
    (hq : isSavedFishDocument document = true) (hu : u ≠ document.uri) :
    (lintEventStep homedir st (document, .sysError msg)).shownMessages =
      st.shownMessages ++ [msg] ∧
    dcGet (lintEventStep homedir st (document, .sysError msg)).diagnostics
      document.uri = none ∧
    dcGet (lintEventStep homedir st (document, .sysError msg)).diagnostics u =
      dcGet st.diagnostics u ∧
    (lintEventStep homedir st (document, .sysError msg)).ranCommands =
      st.ranCommands ++ [fishLintCommand document] := by
  have hstep : lintEventStep homedir st (document, .sysError msg) =
      { diagnostics := dcDelete st.diagnostics document.uri
        shownMessages := st.shownMessages ++ [msg]
        ranCommands := st.ranCommands ++ [fishLintCommand document] } := by
    simp [lintEventStep, hq]
  rw [hstep]
  exact ⟨rfl, dcGet_dcDelete_self _ _, dcGet_dcDelete_other _ _ _ hu, rfl⟩

/-- Witness for C5: a concrete failed lint of the sample document leaves
the diagnostics stored for another Uri untouched. -/
theorem lintFailure_shows_message_and_clears_witness :
    dcGet (lintEventStep "/h" witnessState
        (sampleDoc, RunOutcome.sysError "err")).diagnostics otherUri =
      dcGet witnessState.diagnostics otherUri :=
  (lintFailure_shows_message_and_clears "/h" witnessState sampleDoc "err"
    otherUri (by decide) (by decide)).2.2.1

/-! ### Claim C7 -/

/-- Counterexample for C7 as stated: two save events for the same saved
fish document in direct succession spawn two fish -n runs, not one; the
pipeline does not debounce. -/
theorem lintPipeline_not_debounced_cex :
    isSavedFishDocument sampleDoc = true ∧
    (lintPipeline "/h" ⟨[], [], []⟩
        [(sampleDoc, RunOutcome.completed ⟨0, "", ""⟩),
         (sampleDoc, RunOutcome.completed ⟨0, "", ""⟩)]).ranCommands.length
      = 2 := by
  constructor
  · decide
  · decide

/-- C7 amended: the merged open/save event stream is filtered but not
debounced: the lint pipeline spawns exactly one fish -n process per event
that passes the saved-fish-document filter, however close together the
events are. -/
theorem lintPipeline_one_run_per_event (homedir : String) (st : LintState)
    (events : List (TextDocument × RunOutcome)) :
    (lintPipeline homedir st events).ranCommands.length =
      st.ranCommands.length +
        (events.filter (fun e => isSavedFishDocument e.1)).length := by
  induction events generalizing st with
  | nil => simp [lintPipeline]
  | cons e es ih =>
    obtain ⟨d, run⟩ := e
    have hgoal : lintPipeline homedir st ((d, run) :: es) =
        lintPipeline homedir (lintEventStep homedir st (d, run)) es := rfl
    rw [hgoal, ih]
    by_cases hq : isSavedFishDocument d = true
    · have hstep : (lintEventStep homedir st (d, run)).ranCommands.length =
          st.ranCommands.length + 1 := by
        cases run <;> simp [lintEventStep, hq]
      have hfil : (((d, run) :: es).filter
            (fun e => isSavedFishDocument e.1)).length =
          (es.filter (fun e => isSavedFishDocument e.1)).length + 1 := by
        simp [List.filter_cons, hq]
      omega
    · have hstep : lintEventStep homedir st (d, run) = st := by
        simp [lintEventStep, hq]
      have hfil : (((d, run) :: es).filter
            (fun e => isSavedFishDocument e.1)).length =
          (es.filter (fun e => isSavedFishDocument e.1)).length := by
        simp [List.filter_cons, hq]
      rw [hstep]
      omega

/-! ### Claim C8 -/

/-- C8: the file-name filter of parseFishErrors compares the toString
method references of the expanded Uri and the document Uri, which are the
same shared prototype method for every Uri, so the comparison never
rejects: parseFishErrors emits one diagnostic per matching stderr line,
whatever file the line names and whatever the document Uri is. -/
theorem parseFishErrors_ignores_fileName (homedir : String)
    (document : TextDocument) (output : String) :
    (∀ u v : Uri, uriToStringRef u = uriToStringRef v) ∧
    parseFishErrors homedir document output =
      ((splitLines output).filterMap parseLine).map
        (fun t => fishDiagnostic document t.2.1 t.2.2) := by
  refine ⟨fun u v => rfl, ?_⟩
  unfold parseFishErrors
  congr 1
  apply List.filter_eq_self.mpr
  intro t ht
  rfl

/-! ### Claim C9 -/

theorem versionOfLine_isSome_iff (line : String) :
    (versionOfLine line).isSome = true ↔
      ∃ rest : List Char, rest ≠ [] ∧
        line.toList = versionLineStart ++ rest := by
  unfold versionOfLine
  cases hs : stripPrefixChars versionLineStart line.toList with
  | none =>
    simp only [hs, Option.isSome_none, Bool.false_eq_true, false_iff]
    rintro ⟨rest, hne, heq⟩
    have h2 := stripPrefixChars_self_append versionLineStart rest
    rw [← heq] at h2
    rw [hs] at h2
    cases h2
  | some rest =>
    simp only [hs]
    by_cases hne : rest.isEmpty
    · simp only [hne, if_true, Option.isSome_none, Bool.false_eq_true,
        false_iff]
      have hrest : rest = [] := by simpa [List.isEmpty_iff] using hne
      subst hrest
      have heq : line.toList = versionLineStart := by
        simpa using stripPrefixChars_eq_some hs
      rintro ⟨r2, hr2, heq2⟩
      rw [heq] at heq2
      have heq3 : versionLineStart ++ ([] : List Char) =
          versionLineStart ++ r2 := by
        rw [List.append_nil]
        exact heq2
      exact hr2 (List.append_cancel_left heq3).symm
    · simp only [hne, if_false, Bool.false_eq_true, Option.isSome_some,
        true_iff]
      exact ⟨rest, by simpa [List.isEmpty_iff] using hne,
        stripPrefixChars_eq_some hs⟩

theorem firstVersionLine_isSome_iff (stdout : String) :
    (firstVersionLine stdout).isSome = true ↔ HasVersionLine stdout := by
  unfold firstVersionLine HasVersionLine
  constructor
  · intro h
    cases hl : (splitLines stdout).filterMap versionOfLine with
    | nil => rw [hl] at h; simp at h
    | cons b bs =>
      have hb : b ∈ (splitLines stdout).filterMap versionOfLine := by
        rw [hl]; exact List.mem_cons_self _ _
      obtain ⟨line, hmem, hsome⟩ := List.mem_filterMap.mp hb
      have hvs : (versionOfLine line).isSome = true := by rw [hsome]; rfl
      obtain ⟨rest, hne, heq⟩ := (versionOfLine_isSome_iff line).mp hvs
      exact ⟨line, hmem, rest, hne, heq⟩
  · rintro ⟨line, hmem, rest, hne, heq⟩
    have hsome : (versionOfLine line).isSome = true :=
      (versionOfLine_isSome_iff line).mpr ⟨rest, hne, heq⟩
    obtain ⟨v, hv⟩ := Option.isSome_iff_exists.mp hsome
    have hbmem : v ∈ (splitLines stdout).filterMap versionOfLine :=
      List.mem_filterMap.mpr ⟨line, hmem, hv⟩
    cases hl : (splitLines stdout).filterMap versionOfLine with
    | nil =>
      rw [hl] at hbmem
      cases hbmem
    | cons b bs => rfl

/-- C9: the activation promise resolves exactly when the fish version run
completes (spawning did not fail with a system error) and its standard
output contains a line of the version form; in that case the linter
subscription and both formatting providers for fish are registered.  When
the promise rejects, the error value carries no subscriptions, so nothing
is registered. -/
theorem activate_registers_iff_version (run : RunOutcome) :
    ((∃ subs, activate run = Except.ok subs) ↔
      ∃ r, run = RunOutcome.completed r ∧ HasVersionLine r.stdout) ∧
    (∀ subs, activate run = Except.ok subs →
      Subscription.lintingSubscription ∈ subs ∧
      Subscription.documentFormattingProvider "fish" ∈ subs ∧
      Subscription.documentRangeFormattingProvider "fish" ∈ subs) := by
  constructor
  · constructor
    · rintro ⟨subs, hsubs⟩
      cases run with
      | sysError msg => simp [activate, getFishVersion, Except.map] at hsubs
      | completed r =>
        refine ⟨r, rfl, ?_⟩
        rw [← firstVersionLine_isSome_iff]
        cases hv : firstVersionLine r.stdout with
        | some v => rfl
        | none =>
          unfold activate getFishVersion at hsubs
          simp only [hv] at hsubs
          simp [Except.map] at hsubs
    · rintro ⟨r, hr, hhv⟩
      subst hr
      have hsome := (firstVersionLine_isSome_iff r.stdout).mpr hhv
      obtain ⟨v, hv⟩ := Option.isSome_iff_exists.mp hsome
      refine ⟨startLintingSubscriptions ++
        [.documentFormattingProvider "fish",
         .documentRangeFormattingProvider "fish"], ?_⟩
      unfold activate getFishVersion
      simp only [hv]
      rfl
  · intro subs h
    cases run with
    | sysError msg => simp [activate, getFishVersion, Except.map] at h
    | completed r =>
      unfold activate getFishVersion at h
      cases hv : firstVersionLine r.stdout with
      | none =>
        simp only [hv] at h
        simp [Except.map] at h
      | some v =>
        simp only [hv] at h
        simp only [Except.map, Except.ok.injEq] at h
        subst h
        refine ⟨by decide, by decide, by decide⟩

/-- Witness for C9: a concrete completed fish version run with a matching
output line registers the linter and both formatting providers. -/
theorem activate_registers_iff_version_witness :
    Subscription.lintingSubscription ∈
      (startLintingSubscriptions ++
        [Subscription.documentFormattingProvider "fish",
         Subscription.documentRangeFormattingProvider "fish"]) ∧
    Subscription.documentFormattingProvider "fish" ∈
      (startLintingSubscriptions ++
        [Subscription.documentFormattingProvider "fish",
         Subscription.documentRangeFormattingProvider "fish"]) ∧
    Subscription.documentRangeFormattingProvider "fish" ∈
      (startLintingSubscriptions ++
        [Subscription.documentFormattingProvider "fish",
         Subscription.documentRangeFormattingProvider "fish"]) :=
  (activate_registers_iff_version
    (RunOutcome.completed ⟨0, "fish, version 3.1.2", ""⟩)).2 _ rfl

/-! ### Claim C10 -/

/-- C10: a document passes the lint filter exactly when it is not dirty,
its language is fish and its Uri scheme is file; an open or save event for
any other document leaves the lint state untouched: no fish -n run, no
shown message, and no change to the diagnostic collection. -/
theorem only_saved_fish_documents_linted (homedir : String) (st : LintState)
    (document : TextDocument) (run : RunOutcome) :
    (isSavedFishDocument document = true ↔
      document.isDirty = false ∧ document.languageId = "fish" ∧
        document.uri.scheme = "file") ∧
    (isSavedFishDocument document = false →
      lintEventStep homedir st (document, run) = st) := by
  constructor
  · simp only [isSavedFishDocument, languagesMatch, fishDocumentFilter,
      Bool.and_eq_true, Bool.not_eq_true', decide_eq_true_eq]
    constructor
    · rintro ⟨hd, hpos⟩
      refine ⟨hd, ?_⟩
      by_cases h2 : document.languageId = "fish" ∧
          document.uri.scheme = "file"
      · exact h2
      · rw [if_neg h2] at hpos
        omega
    · rintro ⟨hd, h2⟩
      exact ⟨hd, by rw [if_pos h2]; omega⟩
  · intro h
    simp [lintEventStep, h]

/-- Witness for C10: an event for a dirty fish document leaves the lint
state untouched. -/
theorem only_saved_fish_documents_linted_witness :
    lintEventStep "/h" witnessState
      (dirtyDoc, RunOutcome.completed ⟨0, "", ""⟩) = witnessState :=
  (only_saved_fish_documents_linted "/h" witnessState dirtyDoc
    (RunOutcome.completed ⟨0, "", ""⟩)).2 (by decide)

end VscodeFishIde
